import Mathlib

/-!
A shallow embedding of WATcher's issue model and issue service
(src/app/core/models/issue.model.ts and src/app/core/services/issue.service.ts).

Conventions of the embedding:
* JS `undefined`/`null` are modelled by `Option`; a thrown `TypeError`
  (dereferencing `undefined`) is modelled by the operation returning `none`.
* JS string operations are implemented structurally over `String.data`
  (the list of characters), so that concrete runs reduce by `decide`.
* Timestamp formatting (the moment(...).format calls) is an excluded display
  collaborator (spec section 1) and is carried through as the raw string.
* Modules of the repository that are not under src/ (hidden-data.model.ts,
  github-issue.model.ts, phase.model.ts, the template parsers, and the rxjs
  exhaustMap operator) are modelled from the spec; each such definition says
  so in its doc comment.
-/

namespace WATcher

/-- Modelled from the spec: the workflow phase (phase.model.ts is not under
src/). The service's switch distinguishes only `issuesViewer` from every
other phase, so all other configured phases are collapsed into `other`. -/
inductive Phase where
  | issuesViewer
  | other
deriving DecidableEq, Repr

/-- Modelled from the spec: a comment of an external record
(github-comment.model.ts is not under src/); only the fields read by the
embedded code are carried. -/
structure GithubComment where
  id : Nat
  body : String
deriving DecidableEq, Repr

/-- Modelled from the spec: the ExternalRecord of spec section 3
(github-issue.model.ts is not under src/): global id, display number, title,
body, label strings, comments, assignee logins, milestone reference,
timestamps, open/closed state, issue-vs-PR discriminator, author login. -/
structure GithubIssue where
  id : String
  number : Nat
  title : String
  body : String
  labels : List String
  comments : List GithubComment
  assignees : List String
  milestone : Option String
  created_at : String
  updated_at : String
  closed_at : String
  state : String
  issueOrPr : String
  userLogin : String
deriving DecidableEq, Repr

/-- The characters of a string; all string helpers below work on this list
so that they reduce structurally. -/
def strChars (s : String) : List Char := s.data

def ofChars (cs : List Char) : String := ⟨cs⟩

/-- Splits a list of characters at every character satisfying the predicate
(the JS String.split semantics: adjacent separators yield empty pieces). -/
def splitCharsAux (p : Char → Bool) : List Char → List Char → List (List Char)
  | [], acc => [acc.reverse]
  | c :: cs, acc => if p c then acc.reverse :: splitCharsAux p cs [] else splitCharsAux p cs (c :: acc)

def jsSplit (s : String) (p : Char → Bool) : List String :=
  (splitCharsAux p (strChars s) []).map ofChars

/-- The JS String.trim on the character list (leading and trailing
whitespace removed). -/
def jsTrim (s : String) : String :=
  ofChars ((((strChars s).dropWhile Char.isWhitespace).reverse.dropWhile Char.isWhitespace).reverse)

def strStartsWith (s pre : String) : Bool :=
  (strChars pre).isPrefixOf (strChars s)

def strDropChars (s : String) (n : Nat) : String := ofChars ((strChars s).drop n)

/-- Modelled from the spec (section 4.2 fromLabels): the value of the first
label of the form namespace.value carrying the given namespace, or none when
that namespace is absent from the label list (GithubIssue.findLabel of
github-issue.model.ts is not under src/). -/
def GithubIssue.findLabel (g : GithubIssue) (ns : String) : Option String :=
  (g.labels.filterMap (fun l =>
    if strStartsWith l (ns ++ ".") then some (strDropChars l (ns.length + 1)) else none)).head?

/-- Modelled from the spec (section 4.2): the duplicate flag is carried by
the bare label token. -/
def GithubIssue.hasDuplicateLabel (g : GithubIssue) : Bool :=
  g.labels.contains "duplicate"

/-- Modelled from the spec (section 4.1): the marker that starts the hidden
data block appended after the visible text (hidden-data.model.ts is not
under src/). -/
def hiddenDataMarker : String := "\n<!--hidden-data\n"

/-- Modelled from the spec (section 4.1): a decoded body, that is the visible
text with the block removed plus the mapping of key/value entries. -/
structure HiddenData where
  originalStringWithoutHiddenData : String
  entries : List (String × String)
deriving DecidableEq, Repr

def serializeEntries : List (String × String) → String
  | [] => ""
  | (k, v) :: rest => k ++ ":" ++ v ++ "\n" ++ serializeEntries rest

/-- Modelled from the spec (section 4.1 encode): appends a delimited
machine-parseable block holding all entries after the visible text. -/
def HiddenData.embedDataIntoString (visible : String) (entries : List (String × String)) : String :=
  visible ++ hiddenDataMarker ++ serializeEntries entries ++ "-->"

/-- The characters before the first occurrence of the marker (the whole list
when the marker does not occur). -/
def takeUntilMarker (marker : List Char) : List Char → List Char
  | [] => []
  | c :: rest => if marker.isPrefixOf (c :: rest) then [] else c :: takeUntilMarker marker rest

/-- The characters after the first occurrence of the marker, or none. -/
def afterMarker (marker : List Char) : List Char → Option (List Char)
  | [] => none
  | c :: rest =>
      if marker.isPrefixOf (c :: rest) then some ((c :: rest).drop marker.length)
      else afterMarker marker rest

/-- One line of the block: text before the first colon is the key, the rest
the value; a line with no colon is not an entry. -/
def parseEntryChars (line : List Char) : Option (String × String) :=
  let k := line.takeWhile (fun c => c != ':')
  match line.dropWhile (fun c => c != ':') with
  | ':' :: v => some (ofChars k, ofChars v)
  | _ => none

/-- Modelled from the spec (section 4.1 decode): extracts the block when the
marker is present; a body with no block yields an empty mapping and the text
unchanged. -/
def HiddenData.ofString (text : String) : HiddenData :=
  match afterMarker (strChars hiddenDataMarker) (strChars text) with
  | none => ⟨text, []⟩
  | some block =>
      ⟨ofChars (takeUntilMarker (strChars hiddenDataMarker) (strChars text)),
       (splitCharsAux (fun c => c == '\n') block []).filterMap parseEntryChars⟩

/-- Modelled from the spec: the opaque team value object (team.model.ts is
not under src/); only its identifier is read by the embedded code. -/
structure Team where
  id : String
deriving DecidableEq, Repr

/-- Modelled from the spec (section 4.3): one tutor dispute item
(issue-dispute.model.ts is not under src/): its title, the dispute
description, the tutor's todo text and the done flag behind isDone. -/
structure IssueDispute where
  title : String
  description : String
  todo : String
  done : Bool
deriving DecidableEq, Repr

def IssueDispute.isDone (d : IssueDispute) : Bool := d.done

/-- Modelled from the spec (section 4.3): the moderation section of the
tutor moderation todo template, carrying the tutor's resolutions. -/
structure ModerationSection where
  disputesToResolve : List IssueDispute
deriving DecidableEq, Repr

/-- Modelled from the spec (section 4.3): the output of the tutor moderation
todo template, parsed from comments (tutor-moderation-todo-template.model.ts
is not under src/): an optional moderation section and the comment it was
found in. -/
structure TutorModerationTodoTemplate where
  moderation : Option ModerationSection
  comment : Option GithubComment
deriving DecidableEq, Repr

/-- Modelled from the spec (section 4.3): the output of the tutor moderation
issue template, parsed from the original issue body
(tutor-moderation-issue-template.model.ts is not under src/). The source
reads issueTemplate.description.content and issueTemplate.dispute.disputes
without guards, so the description content and the dispute list are carried
as required fields; the team response section is optional. -/
structure TutorModerationIssueTemplate where
  descriptionContent : String
  teamResponseContent : Option String
  disputes : List IssueDispute
deriving DecidableEq, Repr

/-- The Issue entity of issue.model.ts. Option models a field that can be
undefined; fields the protected constructor does not assign default to none.
githubLabels (the raw label objects) duplicates the labels field and is not
carried separately. -/
structure Issue where
  globalId : String
  id : Nat
  created_at : String
  updated_at : String
  closed_at : String
  /-- In the source the only assignment of this field is commented out
  (issue.model.ts line 131), so no construction path ever sets it. -/
  githubIssue : Option GithubIssue := none
  githubComments : List GithubComment := []
  title : String
  description : String
  hiddenDataInDescription : HiddenData
  milestone : Option String
  state : String
  issueOrPr : String
  author : String
  assignees : List String
  labels : List String
  severity : Option String
  type : Option String
  responseTag : Option String
  duplicated : Bool
  status : Option String
  pending : Option String
  unsure : Option Bool := none
  teamAssigned : Option Team := none
  duplicateOf : Option Nat := none
  teamResponse : Option String := none
  issueDisputes : Option (List IssueDispute) := none
  issueComment : Option GithubComment := none
deriving DecidableEq, Repr

/-- issue.model.ts formatText (lines 71-87): appends two newlines when the
text has a non-blank line; null/undefined pass through unchanged. -/
def Issue.formatText : Option String → Option String
  | none => none
  | some text =>
      let textSplitArray := jsSplit text (fun c => c == '\n' || c == '\r')
      if 0 < (textSplitArray.filter (fun s => jsTrim s != "")).length then
        some (text ++ "\n\n")
      else
        some text

/-- issue.model.ts orDefaultString (lines 109-114): the first string unless
it is falsy (undefined/null/empty) or has length zero. -/
def Issue.orDefaultString (stringA : Option String) (d : String) : String :=
  match stringA with
  | none => d
  | some s => if s = "" then d else if s.length ≠ 0 then s else d

/-- issue.model.ts updateDescription (lines 92-95). -/
def Issue.updateDescription (description : Option String) : String :=
  Issue.orDefaultString (Issue.formatText description) "No details provided by bug reporter."

/-- issue.model.ts updateTeamResponse (lines 100-103). -/
def Issue.updateTeamResponse (teamResponse : Option String) : String :=
  Issue.orDefaultString (Issue.formatText teamResponse) "No details provided by team."

/-- The protected Issue constructor of issue.model.ts (lines 116-144).
The moment(...).format display formatting is carried through as the raw
string; the Milestone wrapper (not under src/) is opaque, so the milestone
reference is carried as is; the commented-out assignment of githubIssue
(line 131) leaves that field none. -/
def Issue.fromRecord (githubIssue : GithubIssue) : Issue :=
  { globalId := githubIssue.id
    id := githubIssue.number
    created_at := githubIssue.created_at
    updated_at := githubIssue.updated_at
    closed_at := githubIssue.closed_at
    title := githubIssue.title
    hiddenDataInDescription := HiddenData.ofString githubIssue.body
    description :=
      Issue.updateDescription (some (HiddenData.ofString githubIssue.body).originalStringWithoutHiddenData)
    milestone := githubIssue.milestone
    state := githubIssue.state
    issueOrPr := githubIssue.issueOrPr
    author := githubIssue.userLogin
    assignees := githubIssue.assignees
    labels := githubIssue.labels
    severity := githubIssue.findLabel "severity"
    type := githubIssue.findLabel "type"
    responseTag := githubIssue.findLabel "response"
    duplicated := githubIssue.hasDuplicateLabel
    status := githubIssue.findLabel "status"
    pending := githubIssue.findLabel "pending" }

/-- issue.model.ts createPhaseBugReportingIssue (lines 146-148). -/
def Issue.createPhaseBugReportingIssue (githubIssue : GithubIssue) : Issue :=
  Issue.fromRecord githubIssue

/-- issue.model.ts clone (lines 212-219): both branches re-run
createPhaseBugReportingIssue on this.githubIssue. In JS the constructor
dereferences its argument, so cloning an issue whose githubIssue field is
undefined throws; that crash is modelled by none. -/
def Issue.clone (issue : Issue) (phase : Phase) : Option Issue :=
  match phase with
  | .issuesViewer => issue.githubIssue.map Issue.createPhaseBugReportingIssue
  | _ => issue.githubIssue.map Issue.createPhaseBugReportingIssue

/-- The positional splice of issue.model.ts lines 198-201 and 258-261:
resolutions.map((dispute, i) => dispute.description = olds[i].description).
Reading olds[i].description throws when the index is past the end of the
existing list (or that list is undefined); the crash is modelled by none. -/
def zipDescriptions : List IssueDispute → Option (List IssueDispute) → Option (List IssueDispute)
  | [], _ => some []
  | d :: ds, some (o :: os) =>
      (zipDescriptions ds (some os)).map (fun r => { d with description := o.description } :: r)
  | _ :: _, _ => none

/-- issue.model.ts updateDispute (lines 255-262), with the todo template's
parse (not under src/) passed in as a function applied to exactly the one
new comment. The source reads todoTemplate.moderation.disputesToResolve and
this.issueDisputes[i].description without guards; those crashes are
modelled by none. -/
def Issue.updateDispute (todoParse : List GithubComment → TutorModerationTodoTemplate)
    (issue : Issue) (githubComment : GithubComment) : Option Issue :=
  let todoTemplate := todoParse [githubComment]
  match todoTemplate.moderation with
  | none => none
  | some moderation =>
      (zipDescriptions moderation.disputesToResolve issue.issueDisputes).map (fun news =>
        { issue with issueComment := todoTemplate.comment, issueDisputes := some news })

/-- issue.model.ts createPhaseModerationIssue (lines 186-205), with the two
template parses (not under src/) passed in as functions: the issue template
runs on the original record, the todo template on the record's comments;
when the todo template found both a moderation section and its comment the
dispute list is replaced by the positional splice. -/
def Issue.createPhaseModerationIssue
    (issueParse : GithubIssue → TutorModerationIssueTemplate)
    (todoParse : List GithubComment → TutorModerationTodoTemplate)
    (githubIssue : GithubIssue) (teamData : Team) : Option Issue :=
  let issue0 := Issue.fromRecord githubIssue
  let issueTemplate := issueParse githubIssue
  let todoTemplate := todoParse githubIssue.comments
  let issue1 := { issue0 with
    githubComments := githubIssue.comments
    teamAssigned := some teamData
    description := issueTemplate.descriptionContent
    teamResponse := issueTemplate.teamResponseContent.map (fun c => Issue.updateTeamResponse (some c))
    issueDisputes := some issueTemplate.disputes }
  match todoTemplate.moderation, todoTemplate.comment with
  | some moderation, some comment =>
      (zipDescriptions moderation.disputesToResolve (some issueTemplate.disputes)).map (fun news =>
        { issue1 with issueDisputes := some news, issueComment := some comment })
  | _, _ => some issue1

/-- issue.service.ts createIssueModel (lines 422-429): only the issuesViewer
phase constructs an Issue; every other phase, or an unset phase, falls
through to the default branch, which returns undefined (none). -/
def createIssueModel (currentPhase : Option Phase) (githubIssue : GithubIssue) : Option Issue :=
  match currentPhase with
  | some .issuesViewer => some (Issue.createPhaseBugReportingIssue githubIssue)
  | _ => none

/-- issue.service.ts createLabel (lines 418-420). -/
def createLabel (prepend : String) (value : String) : String :=
  prepend ++ "." ++ value

/-- JS truthiness of an optional string: undefined and the empty string are
falsy. -/
def jsTruthyString : Option String → Bool
  | none => false
  | some s => s != ""

/-- JS numeric coercion of the pending label value followed by the strict
comparison with 0, modelled for decimal digit strings (the shape of pending
counts); any other string coerces to NaN, which compares false. -/
def charsToNatAux (acc : Nat) : List Char → Option Nat
  | [] => some acc
  | c :: cs => if c.isDigit then charsToNatAux (acc * 10 + (c.toNat - 48)) cs else none

def jsPlusPos (s : String) : Bool :=
  match strChars s with
  | [] => false
  | cs => match charsToNatAux 0 cs with
      | some n => 0 < n
      | none => false

/-- JS indexing past the end of the split array stringifies undefined when
interpolated into a template literal. -/
def jsIndexD (xs : List String) (i : Nat) : String := xs.getD i "undefined"

/-- issue.service.ts createLabelsForIssue (lines 377-416), pushing onto the
result array in source order. The team pair is pushed only when the current
phase differs from issuesViewer; in that branch the source dereferences
issue.teamAssigned.id, which throws when no team is assigned, modelled by
none. -/
def createLabelsForIssue (currentPhase : Option Phase) (issue : Issue) : Option (List String) :=
  let teamPart : Option (List String) :=
    if currentPhase ≠ some Phase.issuesViewer then
      match issue.teamAssigned with
      | none => none
      | some team =>
          let studentTeam := jsSplit team.id (fun c => c == '-')
          some [createLabel "tutorial" (jsIndexD studentTeam 0 ++ "-" ++ jsIndexD studentTeam 1),
                createLabel "team" (jsIndexD studentTeam 2)]
    else some []
  teamPart.map (fun result0 =>
    let result1 :=
      if jsTruthyString issue.severity then result0 ++ [createLabel "severity" (issue.severity.getD "")]
      else result0
    let result2 :=
      if jsTruthyString issue.type then result1 ++ [createLabel "type" (issue.type.getD "")]
      else result1
    let result3 :=
      if jsTruthyString issue.responseTag then result2 ++ [createLabel "response" (issue.responseTag.getD "")]
      else result2
    let result4 := if issue.duplicated then result3 ++ ["duplicate"] else result3
    let result5 :=
      if jsTruthyString issue.status then result4 ++ [createLabel "status" (issue.status.getD "")]
      else result4
    let result6 :=
      if jsTruthyString issue.pending && jsPlusPos (issue.pending.getD "") then
        result5 ++ [createLabel "pending" (issue.pending.getD "")]
      else result5
    let result7 := if issue.unsure.getD false then result6 ++ ["unsure"] else result6
    result7)

/-- The local store this.issues: a JS object keyed by issue id, modelled as
an insertion-ordered association list; the service field starts out
undefined, hence Option Store where it can still be uninitialized. -/
abbrev Store := List (Nat × Issue)

/-- JS property lookup this.issues[id] on the association list (object keys
are unique, so the first entry with the key is the entry). -/
def lookupStore : Store → Nat → Option Issue
  | [], _ => none
  | p :: m, k => if p.1 = k then some p.2 else lookupStore m k

def keysOf (m : Store) : List Nat := m.map (fun p => p.1)

def lookupO (st : Option Store) (k : Nat) : Option Issue :=
  st.bind (fun m => lookupStore m k)

def keysO (st : Option Store) : List Nat := keysOf (st.getD [])

/-- The JS computed-key spread: replace the value at an existing key in
place (object keys are unique), otherwise append the new key. -/
def upsert : Store → Nat → Issue → Store
  | [], k, v => [(k, v)]
  | p :: m, k, v => if p.1 = k then (k, v) :: m else p :: upsert m k v

/-- issue.service.ts updateLocalStore (lines 237-243); spreading an
undefined store yields the store holding just the new issue. -/
def updateLocalStore (st : Option Store) (issueToUpdate : Issue) : Option Store :=
  some (upsert (st.getD []) issueToUpdate.id issueToUpdate)

/-- issue.service.ts deleteFromLocalStore (lines 228-232): rest-destructuring
away the key carrying the deleted issue's id. -/
def deleteFromLocalStore (m : Store) (issueToDelete : Issue) : Store :=
  m.filter (fun p => !(p.1 == issueToDelete.id))

/-- issue.service.ts getOutdatedIssueIds (lines 353-372): empty when the
store was never initialized or when the fetch returned nothing; otherwise
the keys of the store that are absent from the fetched ids. -/
def getOutdatedIssueIds (issues : Option Store) (fetchedIssueIds : List Nat) : List Nat :=
  match issues with
  | none => []
  | some m =>
      if fetchedIssueIds.length = 0 then []
      else (keysOf m).filter (fun issueId => !(fetchedIssueIds.contains issueId))

/-- issue.service.ts deleteIssuesFromLocalStore (lines 343-347): for each
id, getIssue against the initialized store and delete the returned issue.
In the merge flow every such id is a key of the store; the none branch
(where the source would dereference undefined) leaves the store unchanged. -/
def deleteIssuesFromLocalStore (m : Store) (ids : List Nat) : Store :=
  ids.foldl (fun s id =>
    match lookupStore s id with
    | some issue => deleteFromLocalStore s issue
    | none => s) m

/-- The models of a fetched batch: initializeData (line 324) computes
createIssueModel(issue).id for every record, which throws when the phase
constructs no model; mapM propagates that crash as none. -/
def fetchedModels (currentPhase : Option Phase) (batch : List GithubIssue) : Option (List Issue) :=
  batch.mapM (createIssueModel currentPhase)

/-- The store transition of issue.service.ts initializeData (lines 317-335)
once the batch has arrived: upsert every fetched model in order, then evict
the outdated ids computed against the post-upsert store. -/
def mergeSaved (st : Option Store) (models : List Issue) : Option Store :=
  let st1 := models.foldl updateLocalStore st
  let outdated := getOutdatedIssueIds st1 (models.map (fun issue => issue.id))
  st1.map (fun m => deleteIssuesFromLocalStore m outdated)

/-- The outdated ids the merge evicts. -/
def mergeEvictedIds (st : Option Store) (models : List Issue) : List Nat :=
  getOutdatedIssueIds (models.foldl updateLocalStore st) (models.map (fun issue => issue.id))

/-- The full merge of one fetched batch (initializeData), phase included. -/
def mergeBatch (currentPhase : Option Phase) (st : Option Store) (batch : List GithubIssue) :
    Option (Option Store) :=
  (fetchedModels currentPhase batch).map (mergeSaved st)

/-- issue.service.ts createAndSaveIssueModel (lines 337-341); none models
the crash of updateLocalStore on an undefined model. -/
def createAndSaveIssueModel (currentPhase : Option Phase) (st : Option Store)
    (githubIssue : GithubIssue) : Option (Option Store) :=
  (createIssueModel currentPhase githubIssue).map (updateLocalStore st)

/-- issue.service.ts getLatestIssue (lines 102-112) on the success path of
the remote fetch, with the remote modelled as a function from id to record.
The triple carries the emitted issue, the new store, and the number of
remote fetches performed. -/
def getLatestIssue (currentPhase : Option Phase) (remote : Nat → GithubIssue)
    (st : Option Store) (id : Nat) : Option (Option Issue × Option Store × Nat) :=
  (createAndSaveIssueModel currentPhase st (remote id)).map (fun st1 =>
    (st1.bind (fun m => lookupStore m id), st1, 1))

/-- issue.service.ts getIssue (lines 94-100): fetch-and-cache when the store
was never initialized, otherwise emit the cached entry with no fetch. -/
def getIssue (currentPhase : Option Phase) (remote : Nat → GithubIssue)
    (st : Option Store) (id : Nat) : Option (Option Issue × Option Store × Nat) :=
  match st with
  | none => getLatestIssue currentPhase remote st id
  | some m => some (lookupStore m id, st, 0)

/-- A well-formed store: JS object keys are unique, and every entry was
stored by updateLocalStore under its own issue id. -/
def StoreWF (m : Store) : Prop :=
  (keysOf m).Nodup ∧ ∀ p ∈ m, p.2.id = p.1

instance : DecidablePred StoreWF := fun m => by
  unfold StoreWF
  infer_instance

def StoreWFO (st : Option Store) : Prop :=
  ∀ m, st = some m → StoreWF m

/-- An event seen by the poll pipeline of startPollIssues: a timer tick, or
the completion of the inner merge cycle. -/
inductive PollEvent where
  | tick
  | complete
deriving DecidableEq, Repr

/-- The observable state of the pipeline: whether an inner cycle is in
flight, how many cycles run concurrently, how many were ever started and
how many ticks were dropped. The state has no queue of pending ticks. -/
structure PollState where
  inFlight : Bool
  running : Nat
  started : Nat
  dropped : Nat
deriving DecidableEq, Repr

def pollInit : PollState := ⟨false, 0, 0, 0⟩

/-- Modelled from the spec (section 4.6) for the pipeline of startPollIssues
(issue.service.ts lines 40-59): the rxjs exhaustMap operator (rxjs is an
external library, not under src/) maps a timer tick to a merge cycle only
while no cycle is in flight; a tick arriving while one is in flight is
ignored on the spot, and completion of the inner cycle clears the in-flight
marker (the catchError/finalize wrapping makes a failing cycle complete
too, so completion is the only way a cycle ends). -/
def pollStep (s : PollState) : PollEvent → PollState
  | .tick =>
      if s.inFlight then { s with dropped := s.dropped + 1 }
      else { s with inFlight := true, running := s.running + 1, started := s.started + 1 }
  | .complete =>
      if s.inFlight then { s with inFlight := false, running := s.running - 1 }
      else s

def pollRun (events : List PollEvent) : PollState :=
  events.foldl pollStep pollInit

/-- A sample external record with display number n and no labels. -/
def sampleRecord (n : Nat) : GithubIssue :=
  { id := "GID-" ++ toString n
    number := n
    title := "Sample issue"
    body := "body text"
    labels := []
    comments := []
    assignees := []
    milestone := none
    created_at := "2023-01-01T00:00:00Z"
    updated_at := "2023-01-02T00:00:00Z"
    closed_at := ""
    state := "OPEN"
    issueOrPr := "Issue"
    userLogin := "alice" }

/-- The end-to-end record of spec section 8: visible text desc followed by a
hidden data block mapping session to abc, labelled severity.High and
type.FunctionalityBug. -/
def record7 : GithubIssue :=
  { sampleRecord 7 with
    body := HiddenData.embedDataIntoString "desc" [("session", "abc")]
    labels := ["severity.High", "type.FunctionalityBug"] }

/-- The store holding issues 1, 2 and 3 of the eviction example. -/
def demoStore : Store :=
  [(1, Issue.createPhaseBugReportingIssue (sampleRecord 1)),
   (2, Issue.createPhaseBugReportingIssue (sampleRecord 2)),
   (3, Issue.createPhaseBugReportingIssue (sampleRecord 3))]

/-- The fetch batch holding only issues 1 and 2. -/
def demoBatch : List GithubIssue := [sampleRecord 1, sampleRecord 2]

/-- A sample issue carrying every label-relevant attribute, assigned to team
CS2103T-W12-3. -/
def demoLabelledIssue : Issue :=
  { Issue.createPhaseBugReportingIssue
      { sampleRecord 9 with
        labels := ["severity.High", "type.FunctionalityBug", "response.Accepted",
                   "duplicate", "status.Incomplete", "pending.2"] } with
    unsure := some true
    teamAssigned := some ⟨"CS2103T-W12-3"⟩ }

def demoComment : GithubComment := ⟨100, "moderation comment body"⟩

/-- A record carrying one comment, for the moderation construction. -/
def record9 : GithubIssue := { sampleRecord 4 with comments := [demoComment] }

def demoOldDispute : IssueDispute := ⟨"Type of dispute", "original description", "", false⟩

def demoNewDispute : IssueDispute := ⟨"Type of dispute", "placeholder", "Done", true⟩

/-- A sample parse of the moderation todo template: one resolution, found in
the first comment given. -/
def demoTodoParse : List GithubComment → TutorModerationTodoTemplate :=
  fun cs => ⟨some ⟨[demoNewDispute]⟩, cs.head?⟩

/-- A sample parse of the moderation issue template: one dispute description
read from the issue body. -/
def demoIssueParse : GithubIssue → TutorModerationIssueTemplate :=
  fun _ => ⟨"issue description", some "team response", [demoOldDispute]⟩

/-- A sample issue carrying an existing dispute list. -/
def demoModerationIssue : Issue :=
  { Issue.createPhaseBugReportingIssue (sampleRecord 4) with
    issueDisputes := some [demoOldDispute] }

/-- The last fetched model of a given id in a batch (the value that wins
the per-id last-write-wins upserts). -/
def lastModel (models : List Issue) (k : Nat) : Option Issue :=
  models.foldl (fun acc i => if i.id = k then some i else acc) none

/-- The single-flight invariant of the poll pipeline: exactly one cycle
runs while the in-flight marker is set, none otherwise. -/
def pollInv (s : PollState) : Prop :=
  s.running = if s.inFlight then 1 else 0

/-! ## Lemmas about the local store -/

theorem lookup_upsert (m : Store) (k : Nat) (v : Issue) (j : Nat) :
    lookupStore (upsert m k v) j = if j = k then some v else lookupStore m j := by
  induction m with
  | nil =>
      by_cases h : j = k
      · simp [upsert, lookupStore, h]
      · simp [upsert, lookupStore, h, Ne.symm h]
  | cons p m ih =>
      by_cases hpk : p.1 = k
      · by_cases h : j = k
        · subst h
          simp [upsert, lookupStore, hpk]
        · have hpj : ¬ p.1 = j := fun hh => h (hh.symm.trans hpk)
          have hkj : ¬ k = j := fun hh => h hh.symm
          simp [upsert, lookupStore, hpk, h, hpj, hkj]
      · by_cases hpj : p.1 = j
        · have hjk : ¬ j = k := fun hh => hpk (hpj.trans hh)
          simp [upsert, lookupStore, hpk, hpj, hjk]
        · simp [upsert, lookupStore, hpk, hpj, ih]

theorem lookupO_update (st : Option Store) (i : Issue) (k : Nat) :
    lookupO (updateLocalStore st i) k = if i.id = k then some i else lookupO st k := by
  by_cases h : i.id = k
  · cases st <;> simp [updateLocalStore, lookupO, lookup_upsert, h]
  · have hki : ¬ k = i.id := fun hh => h hh.symm
    cases st <;> simp [updateLocalStore, lookupO, lookup_upsert, h, hki, lookupStore]

theorem foldl_last_init (k : Nat) (models : List Issue) (a : Option Issue) :
    models.foldl (fun acc i => if i.id = k then some i else acc) a =
      match lastModel models k with
      | some i => some i
      | none => a := by
  induction models generalizing a with
  | nil => simp [lastModel]
  | cons i ms ih =>
      show List.foldl _ (if i.id = k then some i else a) ms = _
      rw [ih]
      conv_rhs => rw [lastModel, List.foldl_cons, ih]
      by_cases h : i.id = k
      · simp only [h, if_pos rfl]
        cases lastModel ms k <;> simp
      · simp only [if_neg h]
        cases lastModel ms k <;> simp [lastModel]

theorem lastModel_eq_none (models : List Issue) (k : Nat) :
    lastModel models k = none ↔ ∀ i ∈ models, i.id ≠ k := by
  induction models with
  | nil => simp [lastModel]
  | cons i ms ih =>
      rw [lastModel, List.foldl_cons, foldl_last_init]
      cases hm : lastModel ms k with
      | some j =>
          have hnot : ¬ ∀ x ∈ ms, x.id ≠ k := fun hall => by
            rw [ih.mpr hall] at hm
            exact Option.noConfusion hm
          simp only [List.mem_cons]
          constructor
          · intro hcontra
            exact Option.noConfusion hcontra
          · intro hall
            exact absurd (fun x hx => hall x (Or.inr hx)) hnot
      | none =>
          rw [hm] at ih
          by_cases h : i.id = k
          · simp only [if_pos h]
            constructor
            · intro hcontra
              exact Option.noConfusion hcontra
            · intro hall
              exact absurd h (hall i (List.mem_cons_self i ms))
          · simp only [if_neg h]
            constructor
            · intro _
              intro x hx
              rcases List.mem_cons.mp hx with hx1 | hx2
              · exact hx1 ▸ h
              · exact ih.mp rfl x hx2
            · intro _
              trivial

theorem lookupStore_eq_none (m : Store) (k : Nat) :
    lookupStore m k = none ↔ k ∉ keysOf m := by
  induction m with
  | nil => simp [lookupStore, keysOf]
  | cons p m ih =>
      by_cases h : p.1 = k
      · simp [lookupStore, keysOf, h]
      · simp [lookupStore, keysOf, h, ih, Ne.symm h]

theorem lookupO_foldl (models : List Issue) (st : Option Store) (k : Nat) :
    lookupO (models.foldl updateLocalStore st) k =
      match lastModel models k with
      | some i => some i
      | none => lookupO st k := by
  induction models generalizing st with
  | nil => simp [lastModel]
  | cons i ms ih =>
      rw [List.foldl_cons, ih]
      conv_rhs => rw [lastModel, List.foldl_cons, foldl_last_init]
      rw [lookupO_update]
      by_cases h : i.id = k
      · simp only [if_pos h]
        cases lastModel ms k <;> simp
      · simp only [if_neg h]
        cases lastModel ms k <;> simp

theorem lookupO_eq_none (st : Option Store) (k : Nat) :
    lookupO st k = none ↔ k ∉ keysO st := by
  cases st with
  | none => simp [lookupO, keysO, keysOf]
  | some m => simpa [lookupO, keysO] using lookupStore_eq_none m k

theorem mem_keysO (st : Option Store) (k : Nat) :
    k ∈ keysO st ↔ ¬ lookupO st k = none := by
  rw [lookupO_eq_none]
  exact not_not.symm

theorem mem_keysO_foldl (models : List Issue) (st : Option Store) (k : Nat) :
    k ∈ keysO (models.foldl updateLocalStore st) ↔
      (∃ i ∈ models, i.id = k) ∨ k ∈ keysO st := by
  rw [mem_keysO, lookupO_foldl]
  rcases hlm : lastModel models k with _ | i
  · have hex := (lastModel_eq_none models k).mp hlm
    rw [mem_keysO]
    constructor
    · intro hns
      exact Or.inr hns
    · rintro (⟨i, hi, hik⟩ | hns)
      · exact absurd hik (hex i hi)
      · exact hns
  · have hsome : ¬ (∀ x ∈ models, x.id ≠ k) := fun hall => by
      rw [(lastModel_eq_none models k).mpr hall] at hlm
      exact Option.noConfusion hlm
    push_neg at hsome
    constructor
    · intro _
      exact Or.inl hsome
    · intro _
      simp

theorem keysOf_cons (p : Nat × Issue) (m : Store) : keysOf (p :: m) = p.1 :: keysOf m := rfl

theorem mem_upsert_entry (m : Store) (k : Nat) (v : Issue) (q : Nat × Issue)
    (h : q ∈ upsert m k v) : q = (k, v) ∨ q ∈ m := by
  induction m with
  | nil => simpa [upsert] using h
  | cons p m ih =>
      by_cases hpk : p.1 = k
      · simp only [upsert, if_pos hpk] at h
        rcases List.mem_cons.mp h with h1 | h2
        · exact Or.inl h1
        · exact Or.inr (List.mem_cons_of_mem _ h2)
      · simp only [upsert, if_neg hpk] at h
        rcases List.mem_cons.mp h with h1 | h2
        · exact Or.inr (h1 ▸ List.mem_cons_self p m)
        · rcases ih h2 with h3 | h4
          · exact Or.inl h3
          · exact Or.inr (List.mem_cons_of_mem _ h4)

theorem mem_keys_upsert (m : Store) (k : Nat) (v : Issue) (j : Nat) :
    j ∈ keysOf (upsert m k v) ↔ j = k ∨ j ∈ keysOf m := by
  induction m with
  | nil => simp [upsert, keysOf]
  | cons p m ih =>
      by_cases hpk : p.1 = k
      · rw [show upsert (p :: m) k v = (k, v) :: m from by simp [upsert, hpk]]
        simp only [keysOf_cons, List.mem_cons, hpk]
        tauto
      · simp only [upsert, if_neg hpk, keysOf_cons, List.mem_cons]
        rw [ih]
        tauto

theorem StoreWF_upsert (m : Store) (v : Issue) (h : StoreWF m) : StoreWF (upsert m v.id v) := by
  induction m with
  | nil =>
      constructor
      · simp [upsert, keysOf]
      · intro p hp
        simp only [upsert, List.mem_singleton] at hp
        simp [hp]
  | cons p m ih =>
      obtain ⟨hnd, hids⟩ := h
      rw [keysOf_cons, List.nodup_cons] at hnd
      by_cases hpk : p.1 = v.id
      · constructor
        · simp only [upsert, if_pos hpk, keysOf_cons, List.nodup_cons]
          exact ⟨hpk ▸ hnd.1, hnd.2⟩
        · intro q hq
          simp only [upsert, if_pos hpk] at hq
          rcases List.mem_cons.mp hq with h1 | h2
          · simp [h1]
          · exact hids q (List.mem_cons_of_mem _ h2)
      · have hm : StoreWF m := ⟨hnd.2, fun q hq => hids q (List.mem_cons_of_mem _ hq)⟩
        obtain ⟨ihnd, ihids⟩ := ih hm
        constructor
        · simp only [upsert, if_neg hpk, keysOf_cons, List.nodup_cons]
          refine ⟨fun hmem => ?_, ihnd⟩
          rcases (mem_keys_upsert m v.id v p.1).mp hmem with h1 | h2
          · exact hpk h1
          · exact hnd.1 h2
        · intro q hq
          simp only [upsert, if_neg hpk] at hq
          rcases List.mem_cons.mp hq with h1 | h2
          · exact h1 ▸ hids p (List.mem_cons_self p m)
          · exact ihids q h2

theorem StoreWFO_update (st : Option Store) (h : StoreWFO st) (i : Issue) :
    StoreWFO (updateLocalStore st i) := by
  intro m hm
  cases st with
  | none =>
      simp only [updateLocalStore, Option.getD_none, Option.some.injEq] at hm
      subst hm
      exact StoreWF_upsert [] i ⟨List.nodup_nil, by simp⟩
  | some m0 =>
      simp only [updateLocalStore, Option.getD_some, Option.some.injEq] at hm
      subst hm
      exact StoreWF_upsert m0 i (h m0 rfl)

theorem StoreWFO_foldl (models : List Issue) (st : Option Store) (h : StoreWFO st) :
    StoreWFO (models.foldl updateLocalStore st) := by
  induction models generalizing st with
  | nil => exact h
  | cons i ms ih => exact ih (updateLocalStore st i) (StoreWFO_update st h i)

theorem StoreWF_filter (m : Store) (q : Nat × Issue → Bool) (h : StoreWF m) :
    StoreWF (m.filter q) := by
  constructor
  · have hsub : List.Sublist (keysOf (m.filter q)) (keysOf m) := by
      unfold keysOf
      exact List.Sublist.map (fun p => p.1) (List.filter_sublist m)
    exact h.1.sublist hsub
  · intro p hp
    exact h.2 p (List.mem_of_mem_filter hp)

theorem lookup_WF_id : ∀ (m : Store), StoreWF m → ∀ (k : Nat) (v : Issue),
    lookupStore m k = some v → v.id = k := by
  intro m
  induction m with
  | nil =>
      intro _ k v hl
      exact Option.noConfusion hl
  | cons p m ih =>
      intro h k v hl
      obtain ⟨hnd, hids⟩ := h
      rw [keysOf_cons, List.nodup_cons] at hnd
      by_cases hp : p.1 = k
      · simp only [lookupStore, if_pos hp] at hl
        injection hl with hv
        rw [← hv]
        exact (hids p (List.mem_cons_self p m)).trans hp
      · simp only [lookupStore, if_neg hp] at hl
        exact ih ⟨hnd.2, fun q hq => hids q (List.mem_cons_of_mem _ hq)⟩ k v hl

theorem lookupStore_filter_none (m : Store) (q : Nat × Issue → Bool) (k : Nat)
    (h : lookupStore m k = none) : lookupStore (m.filter q) k = none := by
  induction m with
  | nil => simp [lookupStore]
  | cons p m ih =>
      by_cases hp : p.1 = k
      · simp only [lookupStore, if_pos hp] at h
        exact Option.noConfusion h
      · simp only [lookupStore, if_neg hp] at h
        by_cases hq : q p = true
        · rw [List.filter_cons_of_pos hq]
          simp only [lookupStore, if_neg hp]
          exact ih h
        · rw [List.filter_cons_of_neg (by simpa using hq)]
          exact ih h

theorem lookup_filter : ∀ (m : Store), StoreWF m → ∀ (q : Nat × Issue → Bool) (k : Nat),
    lookupStore (m.filter q) k =
      match lookupStore m k with
      | some v => if q (k, v) then some v else none
      | none => none := by
  intro m
  induction m with
  | nil =>
      intro _ q k
      simp [lookupStore]
  | cons p m ih =>
      intro h q k
      obtain ⟨hnd, hids⟩ := h
      rw [keysOf_cons, List.nodup_cons] at hnd
      have hm : StoreWF m := ⟨hnd.2, fun r hr => hids r (List.mem_cons_of_mem _ hr)⟩
      by_cases hp : p.1 = k
      · have heta : ((k, p.2) : Nat × Issue) = p := by
          rw [← hp]
        by_cases hq : q p = true
        · rw [List.filter_cons_of_pos hq]
          simp only [lookupStore, if_pos hp, heta]
          simp [hq]
        · rw [List.filter_cons_of_neg (by simpa using hq)]
          have hknotin : k ∉ keysOf m := hp ▸ hnd.1
          have hmn : lookupStore m k = none := (lookupStore_eq_none m k).mpr hknotin
          simp only [lookupStore, if_pos hp, heta]
          rw [lookupStore_filter_none m q k hmn]
          simp [hq]
      · by_cases hq : q p = true
        · rw [List.filter_cons_of_pos hq]
          simp only [lookupStore, if_neg hp]
          exact ih hm q k
        · rw [List.filter_cons_of_neg (by simpa using hq)]
          simp only [lookupStore, if_neg hp]
          exact ih hm q k

theorem delete_eq_filter : ∀ (ids : List Nat) (m : Store), StoreWF m →
    deleteIssuesFromLocalStore m ids = m.filter (fun p => !(ids.contains p.1)) := by
  intro ids
  induction ids with
  | nil =>
      intro m _
      simp only [deleteIssuesFromLocalStore, List.foldl_nil]
      symm
      rw [List.filter_eq_self]
      intro a _
      simp
  | cons id ids ih =>
      intro m h
      have hstep :
          (match lookupStore m id with
           | some issue => deleteFromLocalStore m issue
           | none => m) = m.filter (fun p => !(p.1 == id)) := by
        cases hl : lookupStore m id with
        | some issue =>
            have hid : issue.id = id := lookup_WF_id m h id issue hl
            simp [deleteFromLocalStore, hid]
        | none =>
            have hnone : ∀ p ∈ m, p.1 ≠ id := by
              intro p hp hcontra
              have hmem : id ∈ keysOf m := hcontra ▸ List.mem_map_of_mem (fun p => p.1) hp
              exact (lookupStore_eq_none m id).mp hl hmem
            symm
            rw [List.filter_eq_self]
            intro a ha
            simpa using hnone a ha
      have hsplit : deleteIssuesFromLocalStore m (id :: ids) =
          deleteIssuesFromLocalStore (m.filter (fun p => !(p.1 == id))) ids := by
        simp only [deleteIssuesFromLocalStore, List.foldl_cons]
        rw [hstep]
      rw [hsplit, ih _ (StoreWF_filter m _ h), List.filter_filter]
      apply List.filter_congr
      intro a _
      by_cases h1 : a.1 = id
      · simp [h1]
      · by_cases h2 : a.1 ∈ ids <;> simp [h1, h2, Ne.symm h1]

theorem lastModel_ne_none (models : List Issue) (k : Nat) :
    ¬ lastModel models k = none ↔ k ∈ models.map (fun i => i.id) := by
  rw [lastModel_eq_none]
  push_neg
  constructor
  · rintro ⟨i, hi, hik⟩
    exact List.mem_map.mpr ⟨i, hi, hik⟩
  · intro hm
    obtain ⟨i, hi, hik⟩ := List.mem_map.mp hm
    exact ⟨i, hi, hik⟩

theorem foldl_update_some (ms : List Issue) (m : Store) :
    ∃ m1, ms.foldl updateLocalStore (some m) = some m1 := by
  induction ms generalizing m with
  | nil => exact ⟨m, rfl⟩
  | cons i ms ih =>
      rw [List.foldl_cons]
      exact ih (upsert m i.id i)

theorem foldl_update_ne_nil (ms : List Issue) (st : Option Store) (h : ms ≠ []) :
    ∃ m1, ms.foldl updateLocalStore st = some m1 := by
  cases ms with
  | nil => exact absurd rfl h
  | cons i ms =>
      rw [List.foldl_cons]
      cases st with
      | none => exact foldl_update_some ms _
      | some m => exact foldl_update_some ms _

theorem mergeSaved_nil (st : Option Store) : mergeSaved st [] = st := by
  cases st <;> rfl

theorem mergeEvictedIds_nil (st : Option Store) : mergeEvictedIds st [] = [] := by
  cases st <;> rfl

theorem map_id_ne_nil (models : List Issue) (h : models ≠ []) :
    ¬ (models.map (fun i => i.id)).length = 0 := by
  cases models with
  | nil => exact absurd rfl h
  | cons i ms => simp

theorem mergeEvictedIds_eq (st : Option Store) (models : List Issue) (hne : models ≠ [])
    (m1 : Store) (hm1 : models.foldl updateLocalStore st = some m1) :
    mergeEvictedIds st models =
      (keysOf m1).filter (fun issueId => !((models.map (fun i => i.id)).contains issueId)) := by
  rw [mergeEvictedIds, hm1, getOutdatedIssueIds, if_neg (map_id_ne_nil models hne)]

theorem mergeSaved_eq_filter (st : Option Store) (h : StoreWFO st) (models : List Issue)
    (_hne : models ≠ []) (m1 : Store) (hm1 : models.foldl updateLocalStore st = some m1) :
    mergeSaved st models =
      some (m1.filter (fun p => !((mergeEvictedIds st models).contains p.1))) := by
  have hwf1 : StoreWF m1 := StoreWFO_foldl models st h m1 hm1
  simp only [mergeSaved, hm1, Option.map_some']
  rw [show getOutdatedIssueIds (some m1) (models.map (fun i => i.id)) = mergeEvictedIds st models
        from by rw [mergeEvictedIds, hm1]]
  rw [delete_eq_filter _ m1 hwf1]

theorem mergeSaved_lookup (st : Option Store) (h : StoreWFO st) (models : List Issue)
    (hne : models ≠ []) (k : Nat) :
    lookupO (mergeSaved st models) k = lastModel models k := by
  obtain ⟨m1, hm1⟩ := foldl_update_ne_nil models st hne
  have hwf1 : StoreWF m1 := StoreWFO_foldl models st h m1 hm1
  have hout := mergeEvictedIds_eq st models hne m1 hm1
  have hlook1 : lookupStore m1 k =
      match lastModel models k with
      | some i => some i
      | none => lookupO st k := by
    have hfold := lookupO_foldl models st k
    rw [hm1] at hfold
    simpa [lookupO] using hfold
  rw [mergeSaved_eq_filter st h models hne m1 hm1]
  simp only [lookupO, Option.some_bind]
  rw [lookup_filter m1 hwf1 _ k, hlook1]
  rcases hlm : lastModel models k with _ | i
  · cases hst : lookupO st k with
    | none => simp
    | some v =>
        have hk1 : k ∈ keysOf m1 := by
          by_contra hnot
          have hce := (lookupStore_eq_none m1 k).mpr hnot
          rw [hlook1, hlm, hst] at hce
          exact Option.noConfusion hce
        have hkn : k ∉ models.map (fun i => i.id) := fun hmem =>
          (lastModel_ne_none models k).mpr hmem hlm
        have hmemout : k ∈ mergeEvictedIds st models := by
          rw [hout, List.mem_filter]
          exact ⟨hk1, by simpa using hkn⟩
        simp
        exact hmemout
  · have hkin : k ∈ models.map (fun i => i.id) := by
      apply (lastModel_ne_none models k).mp
      rw [hlm]
      exact fun hc => Option.noConfusion hc
    have hnotout : k ∉ mergeEvictedIds st models := by
      rw [hout, List.mem_filter]
      rintro ⟨_, hcond⟩
      simp only [Bool.not_eq_true'] at hcond
      have hmm : k ∉ models.map (fun i => i.id) := by
        simpa using hcond
      exact hmm hkin
    simp
    exact hnotout

theorem mem_keys_mergeSaved (st : Option Store) (h : StoreWFO st) (models : List Issue)
    (hne : models ≠ []) (k : Nat) :
    k ∈ keysO (mergeSaved st models) ↔ k ∈ models.map (fun i => i.id) := by
  rw [mem_keysO, mergeSaved_lookup st h models hne k]
  exact lastModel_ne_none models k

theorem StoreWFO_mergeSaved (st : Option Store) (h : StoreWFO st) (models : List Issue) :
    StoreWFO (mergeSaved st models) := by
  cases models with
  | nil =>
      rw [mergeSaved_nil]
      exact h
  | cons i ms =>
      intro m hm
      obtain ⟨m1, hm1⟩ := foldl_update_ne_nil (i :: ms) st (by simp)
      have hwf1 : StoreWF m1 := StoreWFO_foldl (i :: ms) st h m1 hm1
      rw [mergeSaved_eq_filter st h (i :: ms) (by simp) m1 hm1] at hm
      injection hm with hm
      rw [← hm]
      exact StoreWF_filter m1 _ hwf1

theorem create_id (g : GithubIssue) : (Issue.createPhaseBugReportingIssue g).id = g.number := rfl

theorem fetchedModels_viewer (batch : List GithubIssue) :
    fetchedModels (some Phase.issuesViewer) batch =
      some (batch.map Issue.createPhaseBugReportingIssue) := by
  induction batch with
  | nil => rfl
  | cons g gs ih =>
      simp only [fetchedModels, List.mapM_cons] at ih ⊢
      rw [ih]
      rfl

theorem map_create_ids (batch : List GithubIssue) :
    (batch.map Issue.createPhaseBugReportingIssue).map (fun i => i.id) =
      batch.map (fun g => g.number) := by
  rw [List.map_map]
  rfl

theorem StoreWFO_some (m : Store) (h : StoreWF m) : StoreWFO (some m) := by
  intro m0 hm0
  injection hm0 with h0
  exact h0 ▸ h

/-! ## The claims -/

/-- C1: for every merge of a fetched batch, after upserting every fetched
issue keyed by id, exactly the ids present in the prior store but absent
from the batch are evicted (so the final key set is exactly the batch's id
set, as in store 1,2,3 with batch 1,2 yielding exactly 1,2); an empty fetch
batch leaves any store unchanged by the merge; and a merge into a
never-initialized (undefined) store evicts nothing, leaving the store
exactly as the upserts built it. -/
theorem C1_merge_eviction (m : Store) (hwf : StoreWF m) (batch : List GithubIssue) :
    (∀ st : Option Store, mergeBatch (some Phase.issuesViewer) st [] = some st)
    ∧ (batch ≠ [] →
        (∀ k, k ∈ mergeEvictedIds (some m) (batch.map Issue.createPhaseBugReportingIssue) ↔
            (k ∈ keysOf m ∧ k ∉ batch.map (fun g => g.number)))
        ∧ ∃ mr, mergeBatch (some Phase.issuesViewer) (some m) batch = some (some mr)
            ∧ ∀ k, k ∈ keysOf mr ↔ k ∈ batch.map (fun g => g.number))
    ∧ mergeEvictedIds none (batch.map Issue.createPhaseBugReportingIssue) = []
    ∧ mergeBatch (some Phase.issuesViewer) none batch =
        some ((batch.map Issue.createPhaseBugReportingIssue).foldl updateLocalStore none) := by
  have hWFO : StoreWFO (some m) := StoreWFO_some m hwf
  have hevnone : mergeEvictedIds none (batch.map Issue.createPhaseBugReportingIssue) = [] := by
    cases hb : batch with
    | nil => rfl
    | cons g gs =>
        rw [← hb]
        have hmne : (batch.map Issue.createPhaseBugReportingIssue) ≠ [] := by
          rw [hb]
          simp
        obtain ⟨m1, hm1⟩ := foldl_update_ne_nil _ none hmne
        rw [mergeEvictedIds_eq none _ hmne m1 hm1]
        rw [List.filter_eq_nil_iff]
        intro a ha
        have hmem : a ∈ keysO (some m1) := by
          simpa [keysO] using ha
        rw [← hm1] at hmem
        rcases (mem_keysO_foldl _ none a).mp hmem with hex | hin
        · obtain ⟨i, hi, hik⟩ := hex
          have : a ∈ (batch.map Issue.createPhaseBugReportingIssue).map (fun i => i.id) :=
            List.mem_map.mpr ⟨i, hi, hik⟩
          simpa using this
        · simp [keysO, keysOf] at hin
  refine ⟨?_, ?_, hevnone, ?_⟩
  · intro st
    simp only [mergeBatch, fetchedModels, List.mapM_nil]
    rw [show (pure [] : Option (List Issue)) = some [] from rfl]
    rw [Option.map_some', mergeSaved_nil]
  · intro hbne
    have hmne : (batch.map Issue.createPhaseBugReportingIssue) ≠ [] := by
      cases batch with
      | nil => exact absurd rfl hbne
      | cons g gs => simp
    constructor
    · intro k
      obtain ⟨m1, hm1⟩ := foldl_update_ne_nil _ (some m) hmne
      rw [mergeEvictedIds_eq (some m) _ hmne m1 hm1, List.mem_filter]
      have hkeys : k ∈ keysOf m1 ↔
          (k ∈ (batch.map Issue.createPhaseBugReportingIssue).map (fun i => i.id)
            ∨ k ∈ keysOf m) := by
        have := mem_keysO_foldl (batch.map Issue.createPhaseBugReportingIssue) (some m) k
        rw [hm1] at this
        simpa [keysO] using this
      rw [map_create_ids] at hkeys
      constructor
      · rintro ⟨h1, h2⟩
        have hnotid : k ∉ batch.map (fun g => g.number) := by
          have := h2
          simp only [Bool.not_eq_true'] at this
          simpa [map_create_ids] using this
        rcases hkeys.mp h1 with hid | hkm
        · exact absurd hid hnotid
        · exact ⟨hkm, hnotid⟩
      · rintro ⟨hkm, hnotid⟩
        refine ⟨hkeys.mpr (Or.inr hkm), ?_⟩
        simp only [Bool.not_eq_true']
        rw [map_create_ids]
        simpa using hnotid
    · obtain ⟨m1, hm1⟩ := foldl_update_ne_nil _ (some m) hmne
      obtain hmr := mergeSaved_eq_filter (some m) hWFO _ hmne m1 hm1
      refine ⟨m1.filter (fun p =>
          !((mergeEvictedIds (some m) (batch.map Issue.createPhaseBugReportingIssue)).contains p.1)),
        ?_, ?_⟩
      · simp only [mergeBatch, fetchedModels_viewer, Option.map_some']
        rw [hmr]
      · intro k
        have := mem_keys_mergeSaved (some m) hWFO _ hmne k
        rw [hmr, map_create_ids] at this
        simpa [keysO] using this
  · simp only [mergeBatch, fetchedModels_viewer, Option.map_some']
    congr 1
    simp only [mergeSaved]
    rw [show getOutdatedIssueIds
          ((batch.map Issue.createPhaseBugReportingIssue).foldl updateLocalStore none)
          ((batch.map Issue.createPhaseBugReportingIssue).map (fun i => i.id)) =
        mergeEvictedIds none (batch.map Issue.createPhaseBugReportingIssue) from rfl]
    rw [hevnone]
    cases (batch.map Issue.createPhaseBugReportingIssue).foldl updateLocalStore none <;> rfl

/-- Witness for C1 at the concrete store 1,2,3 and batch 1,2: id 3 is
evicted exactly because it was in the prior store and not in the batch, and
the merged store's keys are exactly 1,2. -/
theorem C1_merge_eviction_witness :
    StoreWF demoStore
    ∧ (3 ∈ mergeEvictedIds (some demoStore) (demoBatch.map Issue.createPhaseBugReportingIssue) ↔
        (3 ∈ keysOf demoStore ∧ 3 ∉ demoBatch.map (fun g => g.number)))
    ∧ keysO (mergeSaved (some demoStore) (demoBatch.map Issue.createPhaseBugReportingIssue))
        = [1, 2] :=
  ⟨by decide,
   ((C1_merge_eviction demoStore (by decide) demoBatch).2.1 (by decide)).1 3,
   by decide⟩

/-- C4: merging the same fetch batch twice in succession yields the same
store contents as merging it once (the lookup of every id agrees between
the two resulting stores), and the second merge evicts nothing. -/
theorem C4_merge_idempotent (st : Option Store) (hwf : StoreWFO st) (batch : List GithubIssue) :
    mergeBatch (some Phase.issuesViewer) st batch =
      some (mergeSaved st (batch.map Issue.createPhaseBugReportingIssue))
    ∧ (∀ k, lookupO (mergeSaved (mergeSaved st (batch.map Issue.createPhaseBugReportingIssue))
          (batch.map Issue.createPhaseBugReportingIssue)) k =
        lookupO (mergeSaved st (batch.map Issue.createPhaseBugReportingIssue)) k)
    ∧ mergeEvictedIds (mergeSaved st (batch.map Issue.createPhaseBugReportingIssue))
        (batch.map Issue.createPhaseBugReportingIssue) = [] := by
  have hWFO1 : StoreWFO (mergeSaved st (batch.map Issue.createPhaseBugReportingIssue)) :=
    StoreWFO_mergeSaved st hwf _
  refine ⟨?_, ?_, ?_⟩
  · simp only [mergeBatch, fetchedModels_viewer, Option.map_some']
  · intro k
    by_cases hbne : batch = []
    · subst hbne
      simp only [List.map_nil, mergeSaved_nil]
    · have hmne : batch.map Issue.createPhaseBugReportingIssue ≠ [] := by
        cases batch with
        | nil => exact absurd rfl hbne
        | cons g gs => simp
      rw [mergeSaved_lookup _ hWFO1 _ hmne k, mergeSaved_lookup st hwf _ hmne k]
  · by_cases hbne : batch = []
    · subst hbne
      simp only [List.map_nil]
      exact mergeEvictedIds_nil _
    · have hmne : batch.map Issue.createPhaseBugReportingIssue ≠ [] := by
        cases batch with
        | nil => exact absurd rfl hbne
        | cons g gs => simp
      obtain ⟨m2, hm2⟩ := foldl_update_ne_nil _
        (mergeSaved st (batch.map Issue.createPhaseBugReportingIssue)) hmne
      rw [mergeEvictedIds_eq _ _ hmne m2 hm2, List.filter_eq_nil_iff]
      intro a ha
      have hmem : a ∈ keysO (some m2) := by
        simpa [keysO] using ha
      rw [← hm2] at hmem
      rcases (mem_keysO_foldl _ _ a).mp hmem with hex | hin
      · obtain ⟨i, hi, hik⟩ := hex
        have hmm : a ∈ (batch.map Issue.createPhaseBugReportingIssue).map (fun i => i.id) :=
          List.mem_map.mpr ⟨i, hi, hik⟩
        simp only [Bool.not_eq_true', Bool.not_eq_false]
        simpa using hmm
      · have hmm : a ∈ (batch.map Issue.createPhaseBugReportingIssue).map (fun i => i.id) :=
          (mem_keys_mergeSaved st hwf _ hmne a).mp hin
        simp only [Bool.not_eq_true', Bool.not_eq_false]
        simpa using hmm

/-- Witness for C4 at the concrete store 1,2,3 and batch 1,2: the second
merge of the same batch evicts nothing. -/
theorem C4_merge_idempotent_witness :
    mergeEvictedIds (mergeSaved (some demoStore) (demoBatch.map Issue.createPhaseBugReportingIssue))
      (demoBatch.map Issue.createPhaseBugReportingIssue) = [] :=
  (C4_merge_idempotent (some demoStore) (StoreWFO_some demoStore (by decide)) demoBatch).2.2

theorem pollInv_init : pollInv pollInit := rfl

theorem pollInv_step (s : PollState) (e : PollEvent) (h : pollInv s) : pollInv (pollStep s e) := by
  cases e with
  | tick =>
      by_cases hb : s.inFlight = true
      · simp [pollStep, pollInv, hb] at h ⊢
        exact h
      · simp [pollStep, pollInv, hb] at h ⊢
        simp [h]
  | complete =>
      by_cases hb : s.inFlight = true
      · simp [pollStep, pollInv, hb] at h ⊢
        simp [h]
      · simp [pollStep, pollInv, hb] at h ⊢
        exact h

theorem pollRun_inv (events : List PollEvent) : pollInv (pollRun events) := by
  have aux : ∀ (es : List PollEvent) (s : PollState), pollInv s → pollInv (es.foldl pollStep s) := by
    intro es
    induction es with
    | nil => exact fun s h => h
    | cons e es ih => exact fun s h => ih _ (pollInv_step s e h)
  exact aux events pollInit pollInv_init

/-- C2: under the exhaust semantics of the poll pipeline started by
startPollIssues, no two merge cycles ever run concurrently (after any event
sequence at most one cycle is running), and a tick that fires while a cycle
is in flight is dropped on the spot: the only state change is the dropped
counter, so that tick starts no cycle now and, the state carrying no queue
of pending ticks, none later either. -/
theorem C2_poll_skip_if_busy :
    (∀ events : List PollEvent, (pollRun events).running ≤ 1)
    ∧ ∀ s : PollState, s.inFlight = true →
        pollStep s PollEvent.tick = { s with dropped := s.dropped + 1 } := by
  constructor
  · intro events
    have h := pollRun_inv events
    rw [pollInv] at h
    rw [h]
    by_cases hb : (pollRun events).inFlight <;> simp [hb]
  · intro s hs
    simp [pollStep, hs]

/-- Witness for C2: two immediate ticks leave at most one cycle running,
and a tick in a busy state only bumps the dropped counter. -/
theorem C2_poll_skip_if_busy_witness :
    (pollRun [PollEvent.tick, PollEvent.tick]).running ≤ 1
    ∧ pollStep ⟨true, 1, 1, 0⟩ PollEvent.tick = ⟨true, 1, 1, 1⟩ :=
  ⟨C2_poll_skip_if_busy.1 [PollEvent.tick, PollEvent.tick],
   C2_poll_skip_if_busy.2 ⟨true, 1, 1, 0⟩ rfl⟩

/-- C3: getIssue on a never-initialized store performs exactly one remote
fetch and caches the constructed issue before emitting it; on an
initialized store it emits the cached entry for the id, however stale, with
no remote fetch. -/
theorem C3_getIssue_fetch_or_cache (remote : Nat → GithubIssue) (id : Nat) (m : Store)
    (hid : (remote id).number = id) :
    getIssue (some Phase.issuesViewer) remote none id =
      some (some (Issue.createPhaseBugReportingIssue (remote id)),
        updateLocalStore none (Issue.createPhaseBugReportingIssue (remote id)), 1)
    ∧ getIssue (some Phase.issuesViewer) remote (some m) id = some (lookupStore m id, some m, 0) := by
  constructor
  · simp only [getIssue, getLatestIssue, createAndSaveIssueModel, createIssueModel,
      Option.map_some']
    simp [updateLocalStore, upsert, lookupStore, create_id, hid]
  · rfl

/-- Witness for C3: reading id 5 from the initialized demo store emits the
cached entry with zero fetches. -/
theorem C3_getIssue_fetch_or_cache_witness :
    getIssue (some Phase.issuesViewer) (fun n => sampleRecord n) (some demoStore) 5 =
      some (lookupStore demoStore 5, some demoStore, 0) :=
  (C3_getIssue_fetch_or_cache (fun n => sampleRecord n) 5 demoStore (by decide)).2

/-- C10: on an initialized store holding no entry for the requested id,
getIssue emits undefined (the missing map entry) with no remote fetch and
no error; fetch-on-miss applies only to the never-initialized store. -/
theorem C10_getIssue_miss (remote : Nat → GithubIssue) (m : Store) (id : Nat)
    (h : lookupStore m id = none) :
    getIssue (some Phase.issuesViewer) remote (some m) id = some (none, some m, 0) := by
  simp [getIssue, h]

/-- Witness for C10: id 7 is absent from the demo store. -/
theorem C10_getIssue_miss_witness :
    getIssue (some Phase.issuesViewer) (fun n => sampleRecord n) (some demoStore) 7 =
      some (none, some demoStore, 0) :=
  C10_getIssue_miss (fun n => sampleRecord n) demoStore 7 (by decide)

/-- C5: the protected constructor never stores the source record (its
assignment is commented out at issue.model.ts line 131), so clone, which
re-runs the bug-reporting construction on this.githubIssue, dereferences
undefined and crashes (none) for every issue built from a record, instead
of producing the fresh copy that its own documentation and the spec
promise. -/
theorem C5_clone_crashes : ∀ (g : GithubIssue) (phase : Phase),
    (Issue.fromRecord g).githubIssue = none
    ∧ Issue.clone (Issue.createPhaseBugReportingIssue g) phase = none := by
  intro g phase
  refine ⟨rfl, ?_⟩
  cases phase <;> rfl

/-- C6 counterexample: with the phase unset, or set to a phase other than
issuesViewer, createIssueModel yields no Issue at all (undefined), not a
degraded base-fields Issue. -/
theorem C6_no_issue_counterexample :
    createIssueModel none (sampleRecord 1) = none
    ∧ createIssueModel (some Phase.other) (sampleRecord 1) = none :=
  ⟨rfl, rfl⟩

/-- C6 amended: when the configured phase is unset or matches no known
phase, createIssueModel yields undefined (no Issue and no error); the
base-fields-only Issue is produced exactly for the issuesViewer phase. -/
theorem C6_amended_phase_dispatch : ∀ (p : Option Phase) (g : GithubIssue),
    createIssueModel p g =
      if p = some Phase.issuesViewer then some (Issue.createPhaseBugReportingIssue g)
      else none := by
  intro p g
  cases p with
  | none => rfl
  | some ph => cases ph <;> rfl

/-- C7 counterexample: the constructed description is not desc, because the
source formatText appends two newlines to any body with a non-blank line
before the default-string check. -/
theorem C7_description_counterexample :
    (Issue.createPhaseBugReportingIssue record7).description ≠ "desc" := by decide

/-- C7 amended: for the bug-report record with visible text desc, a hidden
session block, and labels severity.High and type.FunctionalityBug, the
constructed Issue has description equal to desc followed by two newlines,
severity High, type FunctionalityBug, and duplicated false. -/
theorem C7_amended_end_to_end :
    (Issue.createPhaseBugReportingIssue record7).description = "desc\n\n"
    ∧ (Issue.createPhaseBugReportingIssue record7).severity = some "High"
    ∧ (Issue.createPhaseBugReportingIssue record7).type = some "FunctionalityBug"
    ∧ (Issue.createPhaseBugReportingIssue record7).duplicated = false :=
  ⟨by decide, by decide, by decide, by decide⟩

/-- C8 counterexample: the team pair is emitted, not skipped, outside the
bug-report (issuesViewer) phase, and skipped inside it: with a team
assigned, the encoding for a non-viewer phase starts with the two team
labels while the issuesViewer encoding carries none. -/
theorem C8_team_pair_counterexample :
    createLabelsForIssue (some Phase.other) demoLabelledIssue =
      some ["tutorial.CS2103T-W12", "team.3", "severity.High", "type.FunctionalityBug",
            "response.Accepted", "duplicate", "status.Incomplete", "pending.2", "unsure"]
    ∧ createLabelsForIssue (some Phase.issuesViewer) demoLabelledIssue =
      some ["severity.High", "type.FunctionalityBug", "response.Accepted", "duplicate",
            "status.Incomplete", "pending.2", "unsure"] :=
  ⟨by decide, by decide⟩

theorem append_if (c : Prop) [Decidable c] (r x : List String) :
    (if c then r ++ x else r) = r ++ (if c then x else []) := by
  by_cases h : c <;> simp [h]

/-- C8 amended: the label encoding emits namespace.value for each present
attribute, the bare tokens duplicate and unsure for the two boolean flags,
the pending label exactly when its numeric value is strictly positive, and
the team pair (tutorial.a-b and team.c obtained by splitting the team
identifier on dashes) exactly when the current phase is NOT the bug-report
(issuesViewer) phase: the pair is skipped in the bug-report phase, the
reverse of the claimed condition. -/
theorem C8_amended_label_encoding (p : Option Phase) (issue : Issue) (team : Team)
    (hteam : issue.teamAssigned = some team) :
    createLabelsForIssue p issue = some (
      (if p ≠ some Phase.issuesViewer then
        [createLabel "tutorial"
           (jsIndexD (jsSplit team.id (fun c => c == '-')) 0 ++ "-" ++
            jsIndexD (jsSplit team.id (fun c => c == '-')) 1),
         createLabel "team" (jsIndexD (jsSplit team.id (fun c => c == '-')) 2)]
       else [])
      ++ (if jsTruthyString issue.severity then [createLabel "severity" (issue.severity.getD "")]
          else [])
      ++ (if jsTruthyString issue.type then [createLabel "type" (issue.type.getD "")] else [])
      ++ (if jsTruthyString issue.responseTag then
            [createLabel "response" (issue.responseTag.getD "")]
          else [])
      ++ (if issue.duplicated then ["duplicate"] else [])
      ++ (if jsTruthyString issue.status then [createLabel "status" (issue.status.getD "")]
          else [])
      ++ (if jsTruthyString issue.pending && jsPlusPos (issue.pending.getD "") then
            [createLabel "pending" (issue.pending.getD "")]
          else [])
      ++ (if issue.unsure.getD false then ["unsure"] else [])) := by
  by_cases hp : p = some Phase.issuesViewer
  · simp only [createLabelsForIssue, hteam, hp, ne_eq, not_true_eq_false, if_false,
      Option.map_some', if_neg (fun hc : ¬ (True : Prop) => hc trivial)]
    try simp only [append_if]
    try simp [List.append_assoc]
  · simp only [createLabelsForIssue, hteam, ne_eq, hp, not_false_eq_true, if_true,
      Option.map_some']
    try simp only [append_if]
    try simp [List.append_assoc]

/-- Witness for C8 at the demo issue, whose team id CS2103T-W12-3 splits
into the tutorial and team labels outside the issuesViewer phase. -/
theorem C8_amended_label_encoding_witness :
    createLabelsForIssue (some Phase.other) demoLabelledIssue = some (
      (if (some Phase.other : Option Phase) ≠ some Phase.issuesViewer then
        [createLabel "tutorial"
           (jsIndexD (jsSplit (Team.mk "CS2103T-W12-3").id (fun c => c == '-')) 0 ++ "-" ++
            jsIndexD (jsSplit (Team.mk "CS2103T-W12-3").id (fun c => c == '-')) 1),
         createLabel "team" (jsIndexD (jsSplit (Team.mk "CS2103T-W12-3").id (fun c => c == '-')) 2)]
       else [])
      ++ (if jsTruthyString demoLabelledIssue.severity then
            [createLabel "severity" (demoLabelledIssue.severity.getD "")]
          else [])
      ++ (if jsTruthyString demoLabelledIssue.type then
            [createLabel "type" (demoLabelledIssue.type.getD "")]
          else [])
      ++ (if jsTruthyString demoLabelledIssue.responseTag then
            [createLabel "response" (demoLabelledIssue.responseTag.getD "")]
          else [])
      ++ (if demoLabelledIssue.duplicated then ["duplicate"] else [])
      ++ (if jsTruthyString demoLabelledIssue.status then
            [createLabel "status" (demoLabelledIssue.status.getD "")]
          else [])
      ++ (if jsTruthyString demoLabelledIssue.pending
            && jsPlusPos (demoLabelledIssue.pending.getD "") then
            [createLabel "pending" (demoLabelledIssue.pending.getD "")]
          else [])
      ++ (if demoLabelledIssue.unsure.getD false then ["unsure"] else [])) :=
  C8_amended_label_encoding (some Phase.other) demoLabelledIssue (Team.mk "CS2103T-W12-3") rfl

theorem zipDescriptions_eq_zipWith : ∀ (ds os : List IssueDispute), ds.length ≤ os.length →
    zipDescriptions ds (some os) =
      some (List.zipWith (fun d o => { d with description := o.description }) ds os) := by
  intro ds
  induction ds with
  | nil =>
      intro os _
      simp [zipDescriptions]
  | cons d ds ih =>
      intro os h
      cases os with
      | nil => simp at h
      | cons o os =>
          simp only [zipDescriptions, List.zipWith_cons_cons]
          rw [ih os (by simpa using h)]
          rfl

/-- C9: updateDispute re-runs the moderation todo template on exactly the
one new comment and replaces the dispute list with the parsed resolutions,
where resolution i takes the pre-update dispute i's description — a
positional zip, not identity matching; moderation-phase construction
combines the issue-body dispute descriptions with the latest-comment
resolutions by the same positional rule. -/
theorem C9_positional_zip
    (todoParse : List GithubComment → TutorModerationTodoTemplate)
    (issueParse : GithubIssue → TutorModerationIssueTemplate)
    (issue : Issue) (c : GithubComment) (olds : List IssueDispute) (mod : ModerationSection)
    (g : GithubIssue) (teamData : Team) (mod2 : ModerationSection) (c2 : GithubComment)
    (h1 : issue.issueDisputes = some olds)
    (h2 : (todoParse [c]).moderation = some mod)
    (h3 : mod.disputesToResolve.length ≤ olds.length)
    (h4 : (todoParse g.comments).moderation = some mod2)
    (h5 : (todoParse g.comments).comment = some c2)
    (h6 : mod2.disputesToResolve.length ≤ (issueParse g).disputes.length) :
    Issue.updateDispute todoParse issue c =
      some { issue with
        issueComment := (todoParse [c]).comment
        issueDisputes := some (List.zipWith (fun d o => { d with description := o.description })
          mod.disputesToResolve olds) }
    ∧ ∃ issue2, Issue.createPhaseModerationIssue issueParse todoParse g teamData = some issue2
        ∧ issue2.issueDisputes = some (List.zipWith
            (fun d o => { d with description := o.description })
            mod2.disputesToResolve (issueParse g).disputes)
        ∧ issue2.issueComment = some c2 := by
  constructor
  · simp only [Issue.updateDispute, h2, h1]
    rw [zipDescriptions_eq_zipWith _ _ h3]
    rfl
  · simp only [Issue.createPhaseModerationIssue, h4, h5]
    rw [zipDescriptions_eq_zipWith _ _ h6]
    exact ⟨_, rfl, rfl, rfl⟩

/-- Witness for C9: a one-dispute issue updated by a one-resolution comment
keeps its original description under the resolution's other fields. -/
theorem C9_positional_zip_witness :
    Issue.updateDispute demoTodoParse demoModerationIssue demoComment =
      some { demoModerationIssue with
        issueComment := (demoTodoParse [demoComment]).comment
        issueDisputes := some (List.zipWith (fun d o => { d with description := o.description })
          [demoNewDispute] [demoOldDispute]) } :=
  (C9_positional_zip demoTodoParse demoIssueParse demoModerationIssue demoComment
    [demoOldDispute] ⟨[demoNewDispute]⟩ record9 (Team.mk "CS2103T-W12-3")
    ⟨[demoNewDispute]⟩ demoComment rfl rfl (by decide) rfl rfl (by decide)).1

end WATcher
